import Mathlib

/-!
Verification of the ledger storage and traversal engine of the Xpen
expense-tracking application, shallowly embedded from
`src/xpen/backend/account.py`, `src/xpen/backend/__init__.py`,
`src/xpen/backend/observer.py` and `src/xpen/application/account.py`.

Modelling conventions:
* `Decimal` balances are embedded as `Int` (only subtraction against
  previous balances and the zero balance appear in the verified code).
* `datetime` timestamps are embedded as `Nat` (only their relative order
  matters to the verified code).
* File-system interaction is made explicit: the content of a backing file
  is passed in as data, and performed writes / directory moves are
  returned as data.
-/

/-- A single record entry of an account
(`Record` dataclass, account.py lines 14-25). -/
structure Record where
  tag : Option String
  balance : Int
  date : Nat
  note : Option String
deriving DecidableEq, Repr

/-- Key identifying one month-partition
(`RecordFileKey` dataclass, account.py lines 28-47). -/
structure RecordFileKey where
  monthNumber : Nat
  yearNumber : Nat
deriving DecidableEq, Repr

/-- A record together with the balance difference from the previous record
(`RecordDiff` dataclass, account.py lines 50-57). -/
structure RecordDiff where
  record : Record
  diff : Int
deriving DecidableEq, Repr

/-- In-memory state of one month-partition store
(`RecordFile`, account.py lines 60-133): the ordered record list and the
dirty flag. -/
structure RecordFile where
  records : List Record
  dirty : Bool
deriving DecidableEq, Repr

/-- Failure raised when a backing record file fails to deserialize
(`CorruptedRecordFileError`, account.py lines 403-406). -/
inductive StoreLoadFailure where
  | corrupted
deriving DecidableEq, Repr

/-- `RecordFile.__init__` (account.py lines 71-93) together with
`RecordFile.__load_from_file` (lines 102-109).  The `disk` argument makes
the file system explicit: `none` means the backing file does not exist,
`some none` means the file exists but `pickle.load` raises, and
`some (some rs)` means the file exists and deserializes to `rs`.
The source stores the deserialized list as is: there is no check that the
loaded list is sorted by timestamp. -/
def RecordFile.initFromDisk (disk : Option (Option (List Record))) :
    Except StoreLoadFailure RecordFile :=
  match disk with
  | none => .ok { records := [], dirty := false }
  | some none => .error .corrupted
  | some (some rs) => .ok { records := rs, dirty := false }

/-- `RecordFile.make_dirty` (account.py lines 99-100). -/
def RecordFile.makeDirty (rf : RecordFile) : RecordFile :=
  { rf with dirty := true }

/-- `RecordFile.cleanup` (account.py lines 121-124).  The returned `Bool`
records whether `__save_to_file` was performed.  Note the source sets
`self.__dirty = True` after saving (line 124), so the flag is left set. -/
def RecordFile.cleanup (rf : RecordFile) : RecordFile × Bool :=
  if rf.dirty then ({ records := rf.records, dirty := true }, true)
  else (rf, false)

/-- `RecordFile.add_record` (account.py lines 126-133); `now` is the
`datetime.now()` timestamp of the call. -/
def RecordFile.addRecord (rf : RecordFile) (tag : Option String)
    (balance : Int) (note : Option String) (now : Nat) :
    RecordFile × Record :=
  let newRecord : Record := { tag := tag, balance := balance, date := now, note := note }
  ({ records := rf.records ++ [newRecord], dirty := true }, newRecord)

deriving instance DecidableEq for Except

/-- Consecutive-pair check that a record list is ordered ascending by
timestamp. -/
def chainDateLE : List Record → Bool
  | [] => true
  | [_] => true
  | a :: b :: rest => decide (a.date ≤ b.date) && chainDateLE (b :: rest)

/-- Records sorted ascending by timestamp (the invariant the specification
asks `load` to check). -/
def sortedByDate (rs : List Record) : Prop :=
  chainDateLE rs = true

instance : DecidablePred sortedByDate := fun rs =>
  inferInstanceAs (Decidable (chainDateLE rs = true))

/-- Cursor position (`OldestPosition`, `LatestPosition`, `_ValidPosition`,
account.py lines 136-154). -/
inductive RecordPosition where
  | oldest
  | latest
  | valid (recordFileIndex : Nat) (recordIndex : Nat)
deriving DecidableEq, Repr

/-- Failure raised by cursor operations after invalidation
(`InvalidatedRecordCursorError`, account.py lines 157-163). -/
inductive CursorFailure where
  | invalidated
deriving DecidableEq, Repr

/-- The record list of the partition at index `i` of the cursor's key
snapshot: `self.__account.get_record_file_or_default(self.__record_file_keys[i]).records`.
`files` is the account's partition contents as a function
(`get_record_file_or_default` never fails and yields an empty store for an
unregistered key).  Indices produced by the cursor code are always in
bounds; out-of-bounds indices yield `[]` here. -/
def recAt (files : RecordFileKey → List Record) (keys : List RecordFileKey)
    (i : Nat) : List Record :=
  match keys.get? i with
  | some k => files k
  | none => []

/-- The descending scan loop of `RecordCursor.__previous_position`
(account.py lines 314-325 and 334-347): starting at index `i` and walking
down to 0, land on the last record of the first non-empty partition found,
or fall through. -/
def scanBackFrom (files : RecordFileKey → List Record)
    (keys : List RecordFileKey) : Nat → RecordPosition
  | 0 =>
    if 0 < (recAt files keys 0).length then
      .valid 0 ((recAt files keys 0).length - 1)
    else .oldest
  | i + 1 =>
    if 0 < (recAt files keys (i + 1)).length then
      .valid (i + 1) ((recAt files keys (i + 1)).length - 1)
    else scanBackFrom files keys i

/-- Iteration core of the ascending scan loop of
`RecordCursor.__next_position` (account.py lines 384-400): `fuel` is the
number of loop iterations left (`len(keys) - i` at the call site), `i` the
current index. -/
def scanFwdAux (files : RecordFileKey → List Record)
    (keys : List RecordFileKey) : Nat → Nat → RecordPosition
  | 0, _ => .latest
  | fuel + 1, i =>
    if 0 < (recAt files keys i).length then .valid i 0
    else scanFwdAux files keys fuel (i + 1)

/-- The ascending scan loop of `RecordCursor.__next_position`
(account.py lines 384-400): starting at index `i` and walking up to
`len(keys) - 1`, land on the first record of the first non-empty partition
found, else `LatestPosition`. -/
def scanFwdFrom (files : RecordFileKey → List Record)
    (keys : List RecordFileKey) (i : Nat) : RecordPosition :=
  scanFwdAux files keys (keys.length - i) i

/-- `RecordCursor.__previous_position` (account.py lines 306-349). -/
def previousPosition (files : RecordFileKey → List Record)
    (keys : List RecordFileKey) : RecordPosition → RecordPosition
  | .oldest => .oldest
  | .latest =>
    match keys.length with
    | 0 => .oldest
    | n + 1 => scanBackFrom files keys n
  | .valid i j =>
    if 0 < j then .valid i (j - 1)
    else
      match i with
      | 0 => .oldest
      | i' + 1 => scanBackFrom files keys i'

/-- `RecordCursor.__next_position` (account.py lines 351-400).  The
`OldestPosition` branch mirrors the source exactly: it finds the first key
with a non-empty store and converts it back to an index with `list.index`
(`keys.indexOf`). -/
def nextPosition (files : RecordFileKey → List Record)
    (keys : List RecordFileKey) : RecordPosition → RecordPosition
  | .latest => .latest
  | .oldest =>
    match keys.find? (fun k => decide (0 < (files k).length)) with
    | some k => .valid (keys.indexOf k) 0
    | none => .latest
  | .valid i j =>
    if j + 1 < (recAt files keys i).length then .valid i (j + 1)
    else scanFwdFrom files keys (i + 1)

/-- `RecordCursor.__get_balance_from_position` (account.py lines 292-304):
zero at either sentinel, the indexed record's balance at a valid position.
Valid positions reached by the cursor are always in bounds; out-of-bounds
indices yield 0 here (the source would raise `IndexError`). -/
def balanceFromPosition (files : RecordFileKey → List Record)
    (keys : List RecordFileKey) : RecordPosition → Int
  | .oldest => 0
  | .latest => 0
  | .valid i j =>
    match (recAt files keys i).get? j with
    | some r => r.balance
    | none => 0

/-- The body of `RecordCursor.peek` after the validity check
(account.py lines 270-282): at a valid position, pair the record with the
difference between its balance and the balance at the non-mutating
previous position; at a sentinel yield nothing. -/
def peekAt (files : RecordFileKey → List Record) (keys : List RecordFileKey) :
    RecordPosition → Option RecordDiff
  | .valid i j =>
    match (recAt files keys i).get? j with
    | some r =>
      some { record := r,
             diff := r.balance -
               balanceFromPosition files keys
                 (previousPosition files keys (.valid i j)) }
    | none => none
  | .oldest => none
  | .latest => none

/-- Cursor state (`RecordCursor`, account.py lines 166-221): the snapshot
of the account's key list, the current position and the validity flag. -/
structure RecordCursor where
  recordFileKeys : List RecordFileKey
  recordPosition : RecordPosition
  valid : Bool
deriving DecidableEq, Repr

/-- `RecordCursor.peek` (account.py lines 257-282): raise
`InvalidatedRecordCursorError` when the validity flag is cleared,
otherwise read without moving. -/
def RecordCursor.peek (files : RecordFileKey → List Record)
    (c : RecordCursor) : Except CursorFailure (Option RecordDiff) :=
  if c.valid then .ok (peekAt files c.recordFileKeys c.recordPosition)
  else .error .invalidated

/-- `RecordCursor.previous` (account.py lines 223-239): peek, then move the
position one step toward older records. -/
def RecordCursor.previous (files : RecordFileKey → List Record)
    (c : RecordCursor) :
    Except CursorFailure (Option RecordDiff × RecordCursor) :=
  match c.peek files with
  | .error e => .error e
  | .ok r =>
    .ok (r, { c with
      recordPosition := previousPosition files c.recordFileKeys c.recordPosition })

/-- `RecordCursor.next` (account.py lines 241-255): peek, then move the
position one step toward newer records. -/
def RecordCursor.next (files : RecordFileKey → List Record)
    (c : RecordCursor) :
    Except CursorFailure (Option RecordDiff × RecordCursor) :=
  match c.peek files with
  | .error e => .error e
  | .ok r =>
    .ok (r, { c with
      recordPosition := nextPosition files c.recordFileKeys c.recordPosition })

/-- Cursor construction start positions offered by
`RecordCursor.__init__` (account.py lines 182-221).  The third source
alternative, starting at a given `Record`, is not needed by any claim and
is not modelled. -/
inductive StartPosition where
  | oldestStart
  | latestStart
deriving DecidableEq, Repr

/-- `RecordCursor.__init__` for the `OldestPosition` / `LatestPosition`
branches (account.py lines 194-221): snapshot the key list, resolve the
start position through the stepping rules, mark the cursor valid.  No
subscription to the account is performed by the source constructor. -/
def RecordCursor.fromStart (files : RecordFileKey → List Record)
    (keys : List RecordFileKey) (s : StartPosition) : RecordCursor :=
  match s with
  | .oldestStart =>
    { recordFileKeys := keys,
      recordPosition := nextPosition files keys .oldest,
      valid := true }
  | .latestStart =>
    { recordFileKeys := keys,
      recordPosition := previousPosition files keys .latest,
      valid := true }

/-- Ascending (year, month) comparison used by `Account.__init__`'s
`self.__record_file_keys.sort(key=lambda x: (x.year_number, x.month_number))`
(account.py lines 456-458), as a Bool relation for sorting. -/
def keyLEb (a b : RecordFileKey) : Bool :=
  decide (a.yearNumber < b.yearNumber) ||
    (decide (a.yearNumber = b.yearNumber) &&
      decide (a.monthNumber ≤ b.monthNumber))

/-- Insert a key into a list sorted ascending by `keyLEb`. -/
def insertKeySorted (k : RecordFileKey) :
    List RecordFileKey → List RecordFileKey
  | [] => [k]
  | x :: xs => if keyLEb k x then k :: x :: xs else x :: insertKeySorted k xs

/-- `list.sort(key=lambda x: (x.year_number, x.month_number))`
(account.py lines 456-458): a stable ascending sort by (year, month),
embedded as insertion sort. -/
def sortKeysByYearMonth : List RecordFileKey → List RecordFileKey
  | [] => []
  | x :: xs => insertKeySorted x (sortKeysByYearMonth xs)

/-- Strict ascending (year, month) order on partition keys, used to state
sortedness of a key list. -/
def keyLt (a b : RecordFileKey) : Prop :=
  a.yearNumber < b.yearNumber ∨
    (a.yearNumber = b.yearNumber ∧ a.monthNumber < b.monthNumber)

instance : DecidableRel keyLt := fun a b =>
  inferInstanceAs (Decidable (a.yearNumber < b.yearNumber ∨
    (a.yearNumber = b.yearNumber ∧ a.monthNumber < b.monthNumber)))

/-- Consecutive-pair check that a key list is strictly ascending in
(year, month). -/
def chainKeyLt : List RecordFileKey → Bool
  | [] => true
  | [_] => true
  | a :: b :: rest => decide (keyLt a b) && chainKeyLt (b :: rest)

/-- A key list sorted ascending by (year, month). -/
def keysSortedAsc (l : List RecordFileKey) : Prop :=
  chainKeyLt l = true

instance : DecidablePred keysSortedAsc := fun l =>
  inferInstanceAs (Decidable (chainKeyLt l = true))

/-- Account state (`Account`, account.py lines 422-592).
`filesByKey` is the insertion-ordered content of the
`__record_files_by_key` dict; `recordFileKeysField` is the private
`__record_file_keys` list sorted at construction (lines 455-458) and
appended to by `get_record_file_or_default` (line 565); `observers` is the
subscriber list inherited from `Subject` (observer.py lines 5-20),
holding opaque observer identities. -/
structure Account where
  parentDir : String
  baseName : String
  filesByKey : List (RecordFileKey × RecordFile)
  recordFileKeysField : List RecordFileKey
  observers : List Nat
deriving DecidableEq, Repr

/-- `Account.__init__` (account.py lines 430-458): each discovered key
(the result of `__search_available_record_files`, whose order follows
`os.listdir`) is loaded into the dict in scan order; the private
`__record_file_keys` field is the sorted copy of those keys.  `disk`
supplies the already-deserialized record list of each discovered key
(load failures would propagate out of the constructor and are not part of
any claim about a constructed account).  `Subject.__init__` sets the
observer list empty. -/
def Account.init (parentDir baseName : String)
    (scanned : List RecordFileKey)
    (disk : RecordFileKey → List Record) : Account :=
  { parentDir := parentDir,
    baseName := baseName,
    filesByKey := scanned.map (fun k => (k, { records := disk k, dirty := false })),
    recordFileKeysField := sortKeysByYearMonth scanned,
    observers := [] }

/-- The `record_file_keys` property (account.py lines 518-524): it returns
`list(self.__record_files_by_key.keys())`, i.e. the dict keys in insertion
order — not the sorted `__record_file_keys` field. -/
def Account.record_file_keys (a : Account) : List RecordFileKey :=
  a.filesByKey.map Prod.fst

/-- The record list yielded by
`Account.get_record_file_or_default(key).records`
(account.py lines 553-567): the stored entry's records, or the empty list
of a freshly created store when the key has no entry (a key without an
entry and without a discovered backing file loads empty). -/
def Account.recordsOf (a : Account) (k : RecordFileKey) : List Record :=
  match a.filesByKey.find? (fun p => p.1 == k) with
  | some p => p.2.records
  | none => []

/-- `Account.__rename` (account.py lines 469-478): compute the sibling
path under the same parent directory, move the backing directory there,
update the path reference and mark every owned record file dirty.  The
returned pair is the `(source, destination)` of the `os.rename` move. -/
def Account.rename (a : Account) (newName : String) :
    Account × (String × String) :=
  ({ a with
      baseName := newName,
      filesByKey := a.filesByKey.map (fun p => (p.1, p.2.makeDirty)) },
   (a.parentDir ++ "/" ++ a.baseName, a.parentDir ++ "/" ++ newName))

/-- `Account.add_record` (account.py lines 569-592): resolve the partition
for today's key, append through it (updating the dict entry in place, or
inserting a fresh entry at the end of the dict and appending the key to the
private `__record_file_keys` field, lines 563-566), then `_notify` all
subscribed observers with a `NewRecordMessage` (observer.py lines 13-20).
Returns the updated account, the new record, and the list of notified
observer identities. -/
def Account.addRecord (a : Account) (tag : Option String) (amount : Int)
    (note : Option String) (todayKey : RecordFileKey) (now : Nat) :
    Account × Record × List Nat :=
  let newRecord : Record := { tag := tag, balance := amount, date := now, note := note }
  let a' :=
    if (a.filesByKey.map Prod.fst).contains todayKey then
      { a with
          filesByKey := a.filesByKey.map (fun p =>
            if p.1 == todayKey then
              (p.1, (p.2.addRecord tag amount note now).1)
            else p) }
    else
      { a with
          filesByKey :=
            a.filesByKey ++
              [(todayKey, (RecordFile.addRecord { records := [], dirty := false }
                tag amount note now).1)],
          recordFileKeysField := a.recordFileKeysField ++ [todayKey] }
  (a', newRecord, a.observers)

/-- `Subject._notify` combined with `RecordCursor._response`
(observer.py lines 13-20, account.py lines 175-180): a cursor whose
identity is among the notified observers has its validity flag cleared by
the `NewRecordMessage`; any other cursor is untouched. -/
def RecordCursor.applyNotify (c : RecordCursor) (selfId : Nat)
    (notified : List Nat) : RecordCursor :=
  if selfId ∈ notified then { c with valid := false } else c

/-- `RecordCursor.__init__` at the account level (account.py lines
182-221): the cursor snapshots `account.record_file_keys` and resolves its
start position; the account is returned unchanged because the constructor
performs no subscription — nothing adds the cursor to the account's
observer list. -/
def RecordCursor.fromAccount (a : Account) (s : StartPosition) :
    RecordCursor × Account :=
  (RecordCursor.fromStart a.recordsOf a.record_file_keys s, a)

/-- The `current_balance` property (account.py lines 542-551): peek a
fresh `LatestPosition` cursor; its record's balance, or zero when it
yields nothing.  A fresh cursor is valid, so the error branch of `peek`
is unreachable and mapped to zero. -/
def Account.currentBalance (a : Account) : Int :=
  let c := (RecordCursor.fromAccount a .latestStart).1
  match c.peek a.recordsOf with
  | .ok (some d) => d.record.balance
  | .ok none => 0
  | .error _ => 0

/-- Failures of `Backend` account management
(`InvalidAccountError`, `AccountRenameConflictError`,
backend/__init__.py lines 13-24). -/
inductive BackendFailure where
  | invalidAccount
  | renameConflict
deriving DecidableEq, Repr

/-- Backend state (`Backend`, backend/__init__.py lines 34-44), restricted
to the account map (`__account_by_name`, a dict in insertion order).  The
preference, resource and current-account fields play no part in the
claims about renaming. -/
structure Backend where
  accountByName : List (String × Account)
deriving DecidableEq, Repr

/-- `Backend.rename_account` (backend/__init__.py lines 146-172): fail if
the account is not among the map's values; fail if the new name is already
a key; otherwise delete the entry under the account's current name, insert
the account under the new name at the end of the dict, and perform
`Account.__rename`.  Both checks precede every mutation, so a failure
leaves the backend unchanged.  The success value carries the updated
backend and the `(source, destination)` of the directory move. -/
def Backend.renameAccount (b : Backend) (account : Account)
    (newAccountName : String) :
    Except BackendFailure (Backend × (String × String)) :=
  if ¬ (b.accountByName.map Prod.snd).contains account then
    .error .invalidAccount
  else if (b.accountByName.map Prod.fst).contains newAccountName then
    .error .renameConflict
  else
    let renamed := account.rename newAccountName
    .ok ({ accountByName :=
            b.accountByName.eraseP (fun p => p.1 == account.baseName) ++
              [(newAccountName, renamed.1)] },
         renamed.2)

/-- The character set `string.punctuation` of the Python standard library,
used by `_is_valid_account_name` (application/account.py lines 337-342). -/
def punctuationChars : List Char :=
  "!\x22#$%&\x27()*+,-./:;<=>?@[\x5c]^_\x60\x7b|\x7d~".toList

/-- `_is_valid_account_name` (application/account.py lines 337-342):
reject any name containing a `string.punctuation` character, then require
a non-empty name. -/
def isValidAccountName (name : String) : Bool :=
  if name.toList.any (fun c => punctuationChars.contains c) then false
  else decide (0 < name.length)

/-- Outcome of the account-creation handler. -/
inductive CreateAccountResult where
  | emptyName
  | invalidName
  | alreadyExists
  | created
deriving DecidableEq, Repr

/-- `_Content.__account_created_handler` (application/account.py lines
403-434): empty names are rejected first, then names failing
`_is_valid_account_name`, then names whose directory already exists under
the application data path (`existing` is the set of base names present
there); only a name passing all three checks reaches `os.makedirs`, which
creates the ledger directory. -/
def accountCreatedHandler (existing : List String) (name : String) :
    CreateAccountResult :=
  if name = "" then .emptyName
  else if ¬ isValidAccountName name then .invalidName
  else if existing.contains name then .alreadyExists
  else .created

/-- Outputs of `fuel` successive `next()` calls on a cursor, paired with
the cursor state afterwards.  The error branch (an invalidated cursor)
stops the run; it is unreachable for the valid cursors of the traversal
claims. -/
def collectNext (files : RecordFileKey → List Record) :
    Nat → RecordCursor → List (Option RecordDiff) × RecordCursor
  | 0, c => ([], c)
  | fuel + 1, c =>
    match c.next files with
    | .error _ => ([], c)
    | .ok (d, c') =>
      let rest := collectNext files fuel c'
      (d :: rest.1, rest.2)

/-- Outputs of `fuel` successive `previous()` calls on a cursor, paired
with the cursor state afterwards. -/
def collectPrevious (files : RecordFileKey → List Record) :
    Nat → RecordCursor → List (Option RecordDiff) × RecordCursor
  | 0, c => ([], c)
  | fuel + 1, c =>
    match c.previous files with
    | .error _ => ([], c)
    | .ok (d, c') =>
      let rest := collectPrevious files fuel c'
      (d :: rest.1, rest.2)

/-- All records of the key list's partitions, in key-list order — the
sequence a full forward traversal visits. -/
def allRecordsOf (files : RecordFileKey → List Record)
    (keys : List RecordFileKey) : List Record :=
  (keys.map files).flatten

/-- Records of the partitions from index `i` (inclusive) onward. -/
def joinDropFrom (files : RecordFileKey → List Record)
    (keys : List RecordFileKey) (i : Nat) : List Record :=
  ((keys.drop i).map files).flatten

/-- Records of the partitions before index `i` (exclusive). -/
def joinTakeTo (files : RecordFileKey → List Record)
    (keys : List RecordFileKey) (i : Nat) : List Record :=
  ((keys.take i).map files).flatten

/-- The record (if any) of each cursor output. -/
def outRecords (l : List (Option RecordDiff)) : List (Option Record) :=
  l.map (Option.map RecordDiff.record)

/-- Traversal symmetry property of one ledger (claim C6): running a
cursor constructed at Oldest forward for one call more than the ledger's
record count yields every record once, in order, then the exhaustion
marker; running the resulting exhausted cursor backward the same number of
calls yields exactly the reverse of the forward output sequence, so the
records it produces are the reverse of the forward records. -/
def TraversalSymmetry (files : RecordFileKey → List Record)
    (keys : List RecordFileKey) : Prop :=
  let c0 := RecordCursor.fromStart files keys .oldestStart
  let m := (allRecordsOf files keys).length
  let f := collectNext files (m + 1) c0
  let b := collectPrevious files (m + 1) f.2
  outRecords f.1 = (allRecordsOf files keys).map some ++ [none] ∧
  outRecords b.1 = (outRecords f.1).reverse ∧
  (b.1.filterMap id).map RecordDiff.record =
    ((f.1.filterMap id).map RecordDiff.record).reverse

/-- Modelled from the spec (§4.3 `peek`): `balance_at` over cursor
positions — zero at either sentinel, the addressed record's balance at a
valid position.  This is the specification-side definition used to state
the refinement claim C5 against the source's `peek`. -/
def specBalanceAt (files : RecordFileKey → List Record)
    (keys : List RecordFileKey) : RecordPosition → Int
  | .oldest => 0
  | .latest => 0
  | .valid i j => (((recAt files keys i).get? j).map Record.balance).getD 0

/-- Contract of `peek` on a valid (non-invalidated) cursor (claim C5):
nothing exactly at a sentinel; at a valid position, the addressed record
paired with `balance_at(current) - balance_at(previous(current))`, where
`previous` is the non-mutating backward-stepping rule and `balance_at` is
zero at sentinels. -/
def PeekContract (files : RecordFileKey → List Record)
    (keys : List RecordFileKey) (pos : RecordPosition) : Prop :=
  let c : RecordCursor :=
    { recordFileKeys := keys, recordPosition := pos, valid := true }
  (c.peek files = .ok none ↔ pos = .oldest ∨ pos = .latest) ∧
  (∀ i j, pos = .valid i j →
    ∃ r, (recAt files keys i).get? j = some r ∧
      c.peek files = .ok (some
        { record := r,
          diff := specBalanceAt files keys pos -
            specBalanceAt files keys (previousPosition files keys pos) }))

/-- Sample partition keys for concrete instances. -/
def keyJan : RecordFileKey := { monthNumber := 1, yearNumber := 2024 }

/-- Sample partition key, February 2024. -/
def keyFeb : RecordFileKey := { monthNumber := 2, yearNumber := 2024 }

/-- Sample partition key, March 2024. -/
def keyMar : RecordFileKey := { monthNumber := 3, yearNumber := 2024 }

/-- Sample record in the January partition. -/
def recJan : Record := { tag := none, balance := 5, date := 10, note := none }

/-- Sample record in the February partition, chronologically the most
recent one in the sample accounts. -/
def recFeb : Record := { tag := none, balance := 7, date := 20, note := none }

/-- A deserialized record list that is NOT sorted ascending by timestamp
(dates 10 then 3). -/
def unsortedRecords : List Record :=
  [{ tag := none, balance := 1, date := 10, note := none },
   { tag := none, balance := 2, date := 3, note := none }]

/-- Account whose directory scan yielded February before January — a
listing order `os.listdir` is free to produce. -/
def accFebJan : Account :=
  Account.init "/data" "acct" [keyFeb, keyJan]
    (fun k => if k = keyFeb then [recFeb] else if k = keyJan then [recJan] else [])

/-- All records of `accFebJan` across its partitions, in exposed key-list
order. -/
def accFebJanRecords : List Record :=
  (accFebJan.record_file_keys.map accFebJan.recordsOf).flatten

/-- Account with a single January partition holding a single record, used
for the invalidation scenario. -/
def accJanOnly : Account :=
  Account.init "/data" "acct" [keyJan] (fun k => if k = keyJan then [recJan] else [])

/-- Cursor constructed over `accJanOnly` at the latest position, together
with the account as returned by the constructor. -/
def c1CursorAccount : RecordCursor × Account :=
  RecordCursor.fromAccount accJanOnly .latestStart

/-- The state after appending a record to `accJanOnly` through the
account handle, after the cursor's construction: updated account, new
record, notified observers. -/
def c1AfterAdd : Account × Record × List Nat :=
  c1CursorAccount.2.addRecord none 42 none keyJan 30

/-- Sample partition contents for the cursor-contract witnesses: January
has two records, February is empty, March has one. -/
def sampleFiles : RecordFileKey → List Record :=
  fun k =>
    if k = keyJan then
      [{ tag := some "food", balance := 100, date := 1, note := none },
       { tag := none, balance := 80, date := 2, note := some "refund" }]
    else if k = keyMar then [recFeb]
    else []

/-- Sample key snapshot containing an empty middle partition. -/
def sampleKeys : List RecordFileKey := [keyJan, keyFeb, keyMar]

/-- Backend tracking a single sample account. -/
def sampleBackend : Backend :=
  { accountByName := [("acct", accJanOnly)] }

/-- C2 (code_bug evidence): after one append the store is dirty and
`cleanup` performs the write, but the source's `self.__dirty = True` after
saving (account.py line 124) leaves the flag set, so a second `cleanup`
with no intervening append performs the serialization write again —
against the specified clear-dirtiness/idempotence contract. -/
theorem c2_cleanup_writes_twice :
    ((RecordFile.addRecord { records := [], dirty := false }
        (some "food") 100 none 1).1.cleanup).2 = true ∧
    ((RecordFile.addRecord { records := [], dirty := false }
        (some "food") 100 none 1).1.cleanup).1.dirty = true ∧
    (((RecordFile.addRecord { records := [], dirty := false }
        (some "food") 100 none 1).1.cleanup).1.cleanup).2 = true := by
  decide

/-- C4 (counterexample): a record list that is not sorted ascending by
timestamp deserializes successfully and is retained as is — the load does
not fail with `CorruptedRecordFileError` as the claim states. -/
theorem c4_load_accepts_unsorted :
    ¬ sortedByDate unsortedRecords ∧
    RecordFile.initFromDisk (some (some unsortedRecords)) =
      .ok { records := unsortedRecords, dirty := false } := by
  decide

/-- C4 (amended): loading yields the deserialized sequence whenever
deserialization succeeds (sortedness is not checked), the empty sequence
when no backing file exists, and fails with `CorruptedRecordFileError`
exactly when deserialization fails, retaining no state. -/
theorem c4_load_characterization :
    (∀ rs, RecordFile.initFromDisk (some (some rs)) =
      .ok { records := rs, dirty := false }) ∧
    RecordFile.initFromDisk none = .ok { records := [], dirty := false } ∧
    RecordFile.initFromDisk (some none) = .error .corrupted :=
  ⟨fun _ => rfl, rfl, rfl⟩

/-- C10: the sentinels absorb stepping — on a valid cursor at the
before-oldest sentinel, `previous()` returns nothing and returns the
cursor unchanged (still at the sentinel), and symmetrically `next()` at
the after-latest sentinel; repeated exhausted calls can therefore never
wrap around or error. -/
theorem c10_sentinels_absorbing (files : RecordFileKey → List Record)
    (keys : List RecordFileKey) :
    RecordCursor.previous files
        { recordFileKeys := keys, recordPosition := .oldest, valid := true } =
      .ok (none,
        { recordFileKeys := keys, recordPosition := .oldest, valid := true }) ∧
    RecordCursor.next files
        { recordFileKeys := keys, recordPosition := .latest, valid := true } =
      .ok (none,
        { recordFileKeys := keys, recordPosition := .latest, valid := true }) := by
  constructor <;> rfl

/-- C1 (code_bug evidence): constructing a cursor and then appending a
record to the same account notifies no observer at all (the constructor
never subscribes the cursor, so the account's observer list stays empty),
hence no possible cursor identity is invalidated and the subsequent
`peek()` succeeds instead of raising `InvalidatedRecordCursorError`. -/
theorem c1_append_does_not_invalidate_cursor :
    c1AfterAdd.2.2 = [] ∧
    ∀ selfId,
      c1CursorAccount.1.applyNotify selfId c1AfterAdd.2.2 = c1CursorAccount.1 ∧
      (c1CursorAccount.1.applyNotify selfId c1AfterAdd.2.2).peek
          c1AfterAdd.1.recordsOf =
        .ok (some { record := recJan, diff := 5 }) := by
  refine ⟨by decide, fun selfId => ?_⟩
  have hn : c1AfterAdd.2.2 = [] := by decide
  have h : c1CursorAccount.1.applyNotify selfId c1AfterAdd.2.2 =
      c1CursorAccount.1 := by
    rw [hn]
    simp [RecordCursor.applyNotify]
  refine ⟨h, ?_⟩
  rw [h]
  decide

/-- C3 (code_bug evidence): for an account whose directory scan yielded
February 2024 before January 2024, the exposed `record_file_keys` property
returns the dict insertion order — not sorted ascending by (year, month) —
while the private `__record_file_keys` field built at construction is
sorted, showing the property ignores it. -/
theorem c3_record_file_keys_not_sorted :
    accFebJan.record_file_keys = [keyFeb, keyJan] ∧
    ¬ keysSortedAsc accFebJan.record_file_keys ∧
    accFebJan.recordFileKeysField = [keyJan, keyFeb] ∧
    keysSortedAsc accFebJan.recordFileKeysField := by
  decide

/-- C7 (code_bug evidence): on `accFebJan` the chronologically most
recent record is the February one with balance 7 (its timestamp strictly
dominates every other record's), yet `current_balance` returns 5 — the
balance of the January record — because the Latest cursor walks the
unsorted key snapshot from its end. -/
theorem c7_current_balance_misses_latest_record :
    accFebJan.currentBalance = 5 ∧
    recFeb ∈ accFebJanRecords ∧
    (∀ r ∈ accFebJanRecords, r.date ≤ recFeb.date) ∧
    (∀ r ∈ accFebJanRecords, r.date = recFeb.date → r = recFeb) ∧
    recFeb.balance = 7 ∧
    accFebJan.currentBalance ≠ recFeb.balance := by
  decide

/-- C9: account-name validation on creation — the empty name is rejected
as EmptyName; a non-empty name containing a `string.punctuation` character
is rejected as InvalidName; a well-formed name whose account directory
already exists is rejected as AlreadyExists; exactly the names passing all
three checks reach directory creation. -/
theorem c9_create_account_validation (existing : List String) (name : String) :
    (accountCreatedHandler existing name = .emptyName ↔ name = "") ∧
    (accountCreatedHandler existing name = .invalidName ↔
      name ≠ "" ∧ ∃ c ∈ name.toList, c ∈ punctuationChars) ∧
    (accountCreatedHandler existing name = .alreadyExists ↔
      name ≠ "" ∧ (∀ c ∈ name.toList, c ∉ punctuationChars) ∧
        name ∈ existing) ∧
    (accountCreatedHandler existing name = .created ↔
      name ≠ "" ∧ (∀ c ∈ name.toList, c ∉ punctuationChars) ∧
        name ∉ existing) := by
  have hlen : name ≠ "" → 0 < name.length := by
    rcases name with ⟨data⟩
    cases data with
    | nil => intro h; simp at h
    | cons a as => intro h; simp [String.length]
  by_cases h0 : name = ""
  · subst h0
    simp [accountCreatedHandler]
  · by_cases ha : name.toList.any (fun c => punctuationChars.contains c) = true
    · have hex : ∃ c ∈ name.toList, c ∈ punctuationChars := by
        obtain ⟨c, hc, hp⟩ := List.any_eq_true.mp ha
        exact ⟨c, hc, by simpa using hp⟩
      have hnall : ¬ ∀ c ∈ name.toList, c ∉ punctuationChars := by
        obtain ⟨c, hc, hp⟩ := hex
        exact fun hall => hall c hc hp
      have hval : isValidAccountName name = false := by
        simp only [isValidAccountName]
        rw [ha]
        simp
      have hres : accountCreatedHandler existing name = .invalidName := by
        simp [accountCreatedHandler, h0, hval]
      rw [hres]
      exact ⟨iff_of_false (by decide) h0,
             iff_of_true rfl ⟨h0, hex⟩,
             iff_of_false (by decide) (fun h => hnall h.2.1),
             iff_of_false (by decide) (fun h => hnall h.2.1)⟩
    · have hall : ∀ c ∈ name.toList, c ∉ punctuationChars := by
        intro c hc hp
        exact ha (List.any_eq_true.mpr ⟨c, hc, by simpa using hp⟩)
      have hnex : ¬ ∃ c ∈ name.toList, c ∈ punctuationChars := by
        rintro ⟨c, hc, hp⟩
        exact hall c hc hp
      have hb2 : name.toList.any (fun c => punctuationChars.contains c) = false :=
        Bool.not_eq_true _ |>.mp ha
      have hval : isValidAccountName name = true := by
        simp only [isValidAccountName]
        rw [hb2]
        simp [hlen h0]
      by_cases hm : name ∈ existing
      · have hres : accountCreatedHandler existing name = .alreadyExists := by
          simp [accountCreatedHandler, h0, hval, hm]
        rw [hres]
        exact ⟨iff_of_false (by decide) h0,
               iff_of_false (by decide) (fun h => hnex h.2),
               Iff.intro (fun _ => ⟨h0, hall, hm⟩) (fun _ => rfl),
               iff_of_false (by decide) (fun h => h.2.2 hm)⟩
      · have hres : accountCreatedHandler existing name = .created := by
          simp [accountCreatedHandler, h0, hval, hm]
        rw [hres]
        exact ⟨iff_of_false (by decide) h0,
               iff_of_false (by decide) (fun h => hnex h.2),
               iff_of_false (by decide) (fun h => hm h.2.2),
               Iff.intro (fun _ => ⟨h0, hall, hm⟩) (fun _ => rfl)⟩

/-- C9 witness: the validation outcomes at the specification's concrete
examples, obtained from `c9_create_account_validation`. -/
theorem c9_validation_witness :
    accountCreatedHandler ["Groceries"] "My$Account" = .invalidName ∧
    accountCreatedHandler ["Groceries"] "" = .emptyName ∧
    accountCreatedHandler ["Groceries"] "Groceries" = .alreadyExists ∧
    accountCreatedHandler [] "Groceries" = .created := by
  refine ⟨?_, ?_, ?_, ?_⟩
  · exact (c9_create_account_validation ["Groceries"] "My$Account").2.1.mpr
      ⟨by decide, '$', by decide, by decide⟩
  · exact (c9_create_account_validation ["Groceries"] "").1.mpr rfl
  · exact (c9_create_account_validation ["Groceries"] "Groceries").2.2.1.mpr
      ⟨by decide, by decide, by decide⟩
  · exact (c9_create_account_validation [] "Groceries").2.2.2.mpr
      ⟨by decide, by decide, by decide⟩

/-- Auxiliary: the specification's `balance_at` agrees with the source's
`__get_balance_from_position` at every position. -/
theorem specBalanceAt_eq_balanceFromPosition
    (files : RecordFileKey → List Record) (keys : List RecordFileKey)
    (pos : RecordPosition) :
    specBalanceAt files keys pos = balanceFromPosition files keys pos := by
  cases pos with
  | oldest => rfl
  | latest => rfl
  | valid i j =>
    simp only [specBalanceAt, balanceFromPosition]
    cases (recAt files keys i).get? j <;> simp

/-- C5: on a valid cursor whose position indices are in bounds, `peek`
yields nothing exactly at a sentinel; at a valid position it yields the
addressed record paired with `balance_at(current) -
balance_at(previous(current))` for the specification's `balance_at`
(zero at sentinels) and the non-mutating backward-stepping rule; `peek`
itself returns no new cursor state, so the position is unchanged. -/
theorem c5_peek_contract (files : RecordFileKey → List Record)
    (keys : List RecordFileKey) (pos : RecordPosition)
    (hwf : ∀ i j, pos = .valid i j → j < (recAt files keys i).length) :
    PeekContract files keys pos := by
  cases pos with
  | oldest =>
    constructor
    · simp [RecordCursor.peek, peekAt]
    · intro i j h
      cases h
  | latest =>
    constructor
    · simp [RecordCursor.peek, peekAt]
    · intro i j h
      cases h
  | valid i j =>
    have hij : j < (recAt files keys i).length := hwf i j rfl
    obtain ⟨r, hr⟩ : ∃ r, (recAt files keys i).get? j = some r :=
      ⟨_, List.get?_eq_get hij⟩
    have hr' : (recAt files keys i)[j]? = some r := by
      rw [← List.get?_eq_getElem?]
      exact hr
    constructor
    · simp [RecordCursor.peek, peekAt, hr, hr']
    · intro i' j' h
      obtain ⟨rfl, rfl⟩ : i = i' ∧ j = j' := by
        injection h with h1 h2
        exact ⟨h1, h2⟩
      refine ⟨r, hr, ?_⟩
      have h1 : specBalanceAt files keys (RecordPosition.valid i j) = r.balance := by
        simp only [specBalanceAt]
        rw [hr]
        rfl
      rw [h1, specBalanceAt_eq_balanceFromPosition]
      simp [RecordCursor.peek, peekAt, hr, hr']

/-- C5 witness: the peek contract instantiated at a concrete in-bounds
position of the sample partitions. -/
theorem c5_peek_witness :
    (∀ i j, RecordPosition.valid 0 0 = RecordPosition.valid i j →
      j < (recAt sampleFiles sampleKeys i).length) ∧
    PeekContract sampleFiles sampleKeys (.valid 0 0) := by
  have hw : ∀ i j, RecordPosition.valid 0 0 = RecordPosition.valid i j →
      j < (recAt sampleFiles sampleKeys i).length := by
    intro i j h
    injection h with h1 h2
    subst h1
    subst h2
    decide
  exact ⟨hw, c5_peek_contract sampleFiles sampleKeys _ hw⟩

/-- C8: renaming through the backend fails with `InvalidAccountError` when
the account is not among the tracked values and with
`AccountRenameConflictError` when the new name is already a key (a failure
raises before any mutation); otherwise it re-keys the map to the new name,
moves the backing directory to the sibling path with the new base name,
and marks every record store of the account dirty. -/
theorem c8_rename_contract (b : Backend) (account : Account)
    (newAccountName : String) :
    (account ∉ b.accountByName.map Prod.snd →
      b.renameAccount account newAccountName = .error .invalidAccount) ∧
    (account ∈ b.accountByName.map Prod.snd →
      newAccountName ∈ b.accountByName.map Prod.fst →
      b.renameAccount account newAccountName = .error .renameConflict) ∧
    (account ∈ b.accountByName.map Prod.snd →
      newAccountName ∉ b.accountByName.map Prod.fst →
      b.renameAccount account newAccountName =
        .ok ({ accountByName :=
                b.accountByName.eraseP (fun p => p.1 == account.baseName) ++
                  [(newAccountName,
                    { account with
                        baseName := newAccountName,
                        filesByKey := account.filesByKey.map
                          (fun p => (p.1, p.2.makeDirty)) })] },
             (account.parentDir ++ "/" ++ account.baseName,
              account.parentDir ++ "/" ++ newAccountName)) ∧
      (∀ p ∈ account.filesByKey.map (fun p => (p.1, p.2.makeDirty)),
        p.2.dirty = true)) := by
  refine ⟨?_, ?_, ?_⟩
  · intro hnm
    simp [Backend.renameAccount, hnm]
  · intro hm hk
    simp [Backend.renameAccount, hm, hk]
  · intro hm hk
    constructor
    · simp [Backend.renameAccount, hm, hk, Account.rename, RecordFile.makeDirty]
    · intro p hp
      simp only [List.mem_map] at hp
      obtain ⟨q, _, rfl⟩ := hp
      rfl

/-- C8 witness: the contract applied to the sample backend — a rename to a
free name succeeds and leaves every store of the account dirty, a rename
to the taken name fails with the conflict error, and a rename of an
untracked account fails with the invalid-account error. -/
theorem c8_rename_witness :
    (∀ p ∈ accJanOnly.filesByKey.map (fun p => (p.1, p.2.makeDirty)),
      p.2.dirty = true) ∧
    sampleBackend.renameAccount accJanOnly "acct" = .error .renameConflict ∧
    sampleBackend.renameAccount accFebJan "Other" = .error .invalidAccount := by
  refine ⟨((c8_rename_contract sampleBackend accJanOnly "Other").2.2
      (by decide) (by decide)).2, ?_, ?_⟩
  · exact (c8_rename_contract sampleBackend accJanOnly "acct").2.1
      (by decide) (by decide)
  · exact (c8_rename_contract sampleBackend accFebJan "Other").1 (by decide)

/-- Auxiliary: `recAt` at an index holding key `k`. -/
theorem recAt_of_get? {files : RecordFileKey → List Record}
    {keys : List RecordFileKey} {i : Nat} {k : RecordFileKey}
    (h : keys.get? i = some k) : recAt files keys i = files k := by
  rw [List.get?_eq_getElem?] at h
  simp [recAt, h]

/-- Auxiliary: `recAt` past the end of the key list. -/
theorem recAt_of_none {files : RecordFileKey → List Record}
    {keys : List RecordFileKey} {i : Nat}
    (h : keys.get? i = none) : recAt files keys i = [] := by
  rw [List.get?_eq_getElem?] at h
  simp [recAt, h]

/-- Auxiliary: the suffix records from partition `i` split off partition
`i` itself. -/
theorem joinDrop_succ (files : RecordFileKey → List Record)
    (keys : List RecordFileKey) (i : Nat) :
    joinDropFrom files keys i =
      recAt files keys i ++ joinDropFrom files keys (i + 1) := by
  by_cases h : i < keys.length
  · have hd : keys.drop i = keys.get ⟨i, h⟩ :: keys.drop (i + 1) :=
      List.drop_eq_get_cons h
    have hr : recAt files keys i = files (keys.get ⟨i, h⟩) :=
      recAt_of_get? (List.get?_eq_get h)
    simp only [joinDropFrom]
    rw [hd]
    simp only [List.map_cons, List.flatten_cons]
    rw [hr]
  · have h1 : keys.drop i = [] := List.drop_eq_nil_of_le (le_of_not_lt h)
    have h2 : keys.drop (i + 1) = [] :=
      List.drop_eq_nil_of_le (Nat.le_succ_of_le (le_of_not_lt h))
    have h3 : keys.get? i = none := List.get?_eq_none.mpr (le_of_not_lt h)
    simp [joinDropFrom, h1, h2, recAt_of_none h3]

/-- Auxiliary: the prefix records up to partition `i + 1` append partition
`i`. -/
theorem joinTake_succ (files : RecordFileKey → List Record)
    (keys : List RecordFileKey) (i : Nat) :
    joinTakeTo files keys (i + 1) =
      joinTakeTo files keys i ++ recAt files keys i := by
  rw [joinTakeTo, List.take_succ]
  cases hk : keys[i]? with
  | none =>
    have h3 : keys.get? i = none := by rw [List.get?_eq_getElem?, hk]
    simp [joinTakeTo, recAt_of_none h3]
  | some k =>
    have h3 : keys.get? i = some k := by rw [List.get?_eq_getElem?, hk]
    simp [joinTakeTo, recAt_of_get? h3]

/-- Auxiliary: the suffix from partition 0 is the whole ledger content. -/
theorem joinDrop_zero (files : RecordFileKey → List Record)
    (keys : List RecordFileKey) :
    joinDropFrom files keys 0 = allRecordsOf files keys := rfl

/-- Auxiliary: the prefix up to the key-list length is the whole ledger
content. -/
theorem joinTake_length (files : RecordFileKey → List Record)
    (keys : List RecordFileKey) :
    joinTakeTo files keys keys.length = allRecordsOf files keys := by
  simp [joinTakeTo, allRecordsOf]

/-- Auxiliary: the descending scan of `__previous_position` starting at
`t` either falls through to the oldest sentinel — exactly when every
partition up to `t` is empty — or lands on the last record of a non-empty
partition `a ≤ t` with no records between `a` and `t`. -/
theorem scanBack_char (files : RecordFileKey → List Record)
    (keys : List RecordFileKey) : ∀ t,
    (scanBackFrom files keys t = .oldest ∧
      joinTakeTo files keys (t + 1) = []) ∨
    (∃ a, a ≤ t ∧
      scanBackFrom files keys t = .valid a ((recAt files keys a).length - 1) ∧
      0 < (recAt files keys a).length ∧
      joinTakeTo files keys (t + 1) = joinTakeTo files keys (a + 1)) := by
  intro t
  induction t with
  | zero =>
    by_cases h : 0 < (recAt files keys 0).length
    · exact Or.inr ⟨0, le_refl 0, by simp [scanBackFrom, h], h, rfl⟩
    · have he : recAt files keys 0 = [] :=
        List.length_eq_zero.mp (Nat.eq_zero_of_not_pos h)
      refine Or.inl ⟨by simp [scanBackFrom, h], ?_⟩
      rw [joinTake_succ, he]
      simp [joinTakeTo]
  | succ t ih =>
    by_cases h : 0 < (recAt files keys (t + 1)).length
    · exact Or.inr ⟨t + 1, le_refl _, by simp [scanBackFrom, h], h, rfl⟩
    · have he : recAt files keys (t + 1) = [] :=
        List.length_eq_zero.mp (Nat.eq_zero_of_not_pos h)
      have hstep : joinTakeTo files keys (t + 2) = joinTakeTo files keys (t + 1) := by
        rw [joinTake_succ, he]
        simp
      rcases ih with ⟨h1, h2⟩ | ⟨a, ha, h1, h2, h3⟩
      · exact Or.inl ⟨by simp [scanBackFrom, h, h1], by rw [hstep]; exact h2⟩
      · exact Or.inr ⟨a, Nat.le_succ_of_le ha,
          by simp [scanBackFrom, h, h1], h2, by rw [hstep]; exact h3⟩

/-- Auxiliary: the ascending scan of `__next_position` with `fuel`
iterations left at index `i` (the loop invariant ties `fuel` to
`len(keys) - i`) either falls through to the latest sentinel — exactly
when every partition from `i` on is empty — or lands on the first record
of the first non-empty partition `a ≥ i`, the suffix content from `i`
coinciding with the suffix content from `a`. -/
theorem scanFwdAux_char (files : RecordFileKey → List Record)
    (keys : List RecordFileKey) : ∀ fuel i, fuel = keys.length - i →
    (scanFwdAux files keys fuel i = .latest ∧
      joinDropFrom files keys i = []) ∨
    (∃ a, i ≤ a ∧ scanFwdAux files keys fuel i = .valid a 0 ∧
      0 < (recAt files keys a).length ∧
      joinDropFrom files keys i = joinDropFrom files keys a) := by
  intro fuel
  induction fuel with
  | zero =>
    intro i hi
    have hlen : keys.length ≤ i := by omega
    have h1 : keys.drop i = [] := List.drop_eq_nil_of_le hlen
    exact Or.inl ⟨rfl, by simp [joinDropFrom, h1]⟩
  | succ fuel ih =>
    intro i hi
    have hilt : i < keys.length := by omega
    by_cases h : 0 < (recAt files keys i).length
    · exact Or.inr ⟨i, le_refl i, by simp [scanFwdAux, h], h, rfl⟩
    · have he : recAt files keys i = [] :=
        List.length_eq_zero.mp (Nat.eq_zero_of_not_pos h)
      have hstep : joinDropFrom files keys i = joinDropFrom files keys (i + 1) := by
        rw [joinDrop_succ, he]
        simp
      have hfuel : fuel = keys.length - (i + 1) := by omega
      rcases ih (i + 1) hfuel with ⟨h1, h2⟩ | ⟨a, ha, h1, h2, h3⟩
      · exact Or.inl ⟨by simp [scanFwdAux, h, h1], by rw [hstep]; exact h2⟩
      · exact Or.inr ⟨a, by omega,
          by simp [scanFwdAux, h, h1], h2, by rw [hstep]; exact h3⟩

/-- Auxiliary: `scanFwdFrom` characterization, from `scanFwdAux_char`. -/
theorem scanFwdFrom_char (files : RecordFileKey → List Record)
    (keys : List RecordFileKey) (i : Nat) :
    (scanFwdFrom files keys i = .latest ∧
      joinDropFrom files keys i = []) ∨
    (∃ a, i ≤ a ∧ scanFwdFrom files keys i = .valid a 0 ∧
      0 < (recAt files keys a).length ∧
      joinDropFrom files keys i = joinDropFrom files keys a) :=
  scanFwdAux_char files keys (keys.length - i) i rfl

/-- Auxiliary: `recAt` on a cons key list shifts the index. -/
theorem recAt_cons_succ (files : RecordFileKey → List Record)
    (k : RecordFileKey) (ks : List RecordFileKey) (i : Nat) :
    recAt files (k :: ks) (i + 1) = recAt files ks i := rfl

/-- Auxiliary: the ascending scan on a cons key list, started past the
head, is the scan on the tail with every landing index shifted by one. -/
theorem scanFwdAux_cons_shift (files : RecordFileKey → List Record)
    (k : RecordFileKey) (ks : List RecordFileKey) : ∀ fuel i,
    scanFwdAux files (k :: ks) fuel (i + 1) =
      match scanFwdAux files ks fuel i with
      | .valid a b => .valid (a + 1) b
      | .latest => .latest
      | .oldest => .oldest := by
  intro fuel
  induction fuel with
  | zero => intro i; rfl
  | succ fuel ih =>
    intro i
    rw [scanFwdAux, scanFwdAux, recAt_cons_succ]
    by_cases h : 0 < (recAt files ks i).length
    · simp [h]
    · simp [h, ih (i + 1)]

/-- Auxiliary: on a duplicate-free key snapshot (the dict keys of the
account are distinct), the find-then-index computation of
`__next_position`'s `OldestPosition` branch coincides with the plain
ascending scan from index 0. -/
theorem nextPosition_oldest_eq_scanFwd (files : RecordFileKey → List Record)
    (keys : List RecordFileKey) (hnd : keys.Nodup) :
    nextPosition files keys .oldest = scanFwdFrom files keys 0 := by
  induction keys with
  | nil => rfl
  | cons k ks ih =>
    have hk : k ∉ ks := (List.nodup_cons.mp hnd).1
    have hnd' : ks.Nodup := (List.nodup_cons.mp hnd).2
    have hlen : (k :: ks).length - 0 = ks.length + 1 := by simp
    by_cases hp : decide (0 < (files k).length) = true
    · have hf : (k :: ks).find? (fun x => decide (0 < (files x).length)) =
          some k := List.find?_cons_of_pos _ hp
      have hrec : 0 < (recAt files (k :: ks) 0).length := by
        simpa [recAt] using of_decide_eq_true hp
      rw [nextPosition, hf]
      rw [scanFwdFrom, hlen, scanFwdAux]
      simp [hrec, List.indexOf_cons_self]
    · have hf : (k :: ks).find? (fun x => decide (0 < (files x).length)) =
          ks.find? (fun x => decide (0 < (files x).length)) :=
        List.find?_cons_of_neg _ (by simpa using hp)
      have hrec : ¬ 0 < (recAt files (k :: ks) 0).length := by
        simpa [recAt] using hp
      have hshift : scanFwdFrom files (k :: ks) 0 =
          match scanFwdFrom files ks 0 with
          | .valid a b => .valid (a + 1) b
          | .latest => .latest
          | .oldest => .oldest := by
        rw [scanFwdFrom, hlen, scanFwdAux]
        simp only [hrec, if_false, if_neg hrec]
        have : ks.length = ks.length - 0 := by simp
        rw [this]
        exact scanFwdAux_cons_shift files k ks (ks.length - 0) 0
      cases hfk : ks.find? (fun x => decide (0 < (files x).length)) with
      | none =>
        have hks : scanFwdFrom files ks 0 = .latest := by
          rw [← ih hnd']
          rw [nextPosition, hfk]
        rw [nextPosition, hf, hfk, hshift, hks]
      | some k' =>
        have hmem : k' ∈ ks := List.mem_of_find?_eq_some hfk
        have hne : k ≠ k' := fun h => hk (h ▸ hmem)
        have hks : scanFwdFrom files ks 0 = .valid (ks.indexOf k') 0 := by
          rw [← ih hnd']
          rw [nextPosition, hfk]
        have hidx : (k :: ks).indexOf k' = ks.indexOf k' + 1 := by
          simpa using List.indexOf_cons_ne ks hne
        rw [nextPosition, hf, hfk, hshift, hks]
        simp [hidx]

/-- Auxiliary: one `next()` step of the collector on a valid cursor. -/
theorem collectNext_succ (files : RecordFileKey → List Record)
    (keys : List RecordFileKey) (p : RecordPosition) (n : Nat) :
    collectNext files (n + 1)
        { recordFileKeys := keys, recordPosition := p, valid := true } =
      (peekAt files keys p ::
        (collectNext files n
          { recordFileKeys := keys,
            recordPosition := nextPosition files keys p,
            valid := true }).1,
       (collectNext files n
          { recordFileKeys := keys,
            recordPosition := nextPosition files keys p,
            valid := true }).2) := by
  rfl

/-- Auxiliary: one `previous()` step of the collector on a valid cursor. -/
theorem collectPrevious_succ (files : RecordFileKey → List Record)
    (keys : List RecordFileKey) (p : RecordPosition) (n : Nat) :
    collectPrevious files (n + 1)
        { recordFileKeys := keys, recordPosition := p, valid := true } =
      (peekAt files keys p ::
        (collectPrevious files n
          { recordFileKeys := keys,
            recordPosition := previousPosition files keys p,
            valid := true }).1,
       (collectPrevious files n
          { recordFileKeys := keys,
            recordPosition := previousPosition files keys p,
            valid := true }).2) := by
  rfl

/-- Auxiliary: the record component of `peek`'s output at an in-bounds
valid position. -/
theorem peekAt_record {files : RecordFileKey → List Record}
    {keys : List RecordFileKey} {i j : Nat} {r : Record}
    (hr : (recAt files keys i).get? j = some r) :
    Option.map RecordDiff.record (peekAt files keys (.valid i j)) = some r := by
  have hr' : (recAt files keys i)[j]? = some r := by
    rw [← List.get?_eq_getElem?]
    exact hr
  simp [peekAt, hr, hr']

/-- Auxiliary: forward traversal — from an in-bounds valid position
`(i, j)`, running `next()` once per remaining record and once more yields
each remaining record in order followed by the exhaustion marker, leaving
the cursor at the after-latest sentinel. -/
theorem collectNext_run (files : RecordFileKey → List Record)
    (keys : List RecordFileKey) : ∀ s i j,
    j < (recAt files keys i).length →
    ((recAt files keys i).drop j ++ joinDropFrom files keys (i + 1)).length = s →
    outRecords (collectNext files (s + 1)
        { recordFileKeys := keys, recordPosition := .valid i j,
          valid := true }).1 =
      ((recAt files keys i).drop j ++ joinDropFrom files keys (i + 1)).map some
        ++ [none] ∧
    (collectNext files (s + 1)
        { recordFileKeys := keys, recordPosition := .valid i j,
          valid := true }).2 =
      { recordFileKeys := keys, recordPosition := .latest, valid := true } := by
  intro s
  induction s using Nat.strong_induction_on with
  | _ s ih =>
    intro i j hj hs
    have hr : (recAt files keys i).get? j =
        some ((recAt files keys i).get ⟨j, hj⟩) := List.get?_eq_get hj
    have hdropj : (recAt files keys i).drop j =
        (recAt files keys i).get ⟨j, hj⟩ :: (recAt files keys i).drop (j + 1) :=
      List.drop_eq_get_cons hj
    have hpeek := peekAt_record hr
    have hspos : 0 < s := by
      rw [← hs, hdropj]
      simp only [List.cons_append, List.length_cons]
      omega
    rw [collectNext_succ]
    by_cases hj1 : j + 1 < (recAt files keys i).length
    · have hnext : nextPosition files keys (.valid i j) = .valid i (j + 1) := by
        simp only [nextPosition]
        rw [if_pos hj1]
      have hs' : ((recAt files keys i).drop (j + 1) ++
          joinDropFrom files keys (i + 1)).length = s - 1 := by
        rw [hdropj] at hs
        simp only [List.cons_append, List.length_cons] at hs
        omega
      have hrec := ih (s - 1) (by omega) i (j + 1) hj1 hs'
      have hfuel : (s - 1) + 1 = s := by omega
      rw [hfuel] at hrec
      rw [hnext]
      have hsplit : ((recAt files keys i).drop j ++
            joinDropFrom files keys (i + 1)).map some ++ [none] =
          some ((recAt files keys i).get ⟨j, hj⟩) ::
            (((recAt files keys i).drop (j + 1) ++
              joinDropFrom files keys (i + 1)).map some ++ [none]) := by
        rw [hdropj]
        simp only [List.cons_append, List.map_cons]
      constructor
      · simp only [outRecords, List.map_cons] at hrec ⊢
        rw [hpeek, hrec.1, hsplit]
      · exact hrec.2
    · have hnext : nextPosition files keys (.valid i j) =
          scanFwdFrom files keys (i + 1) := by
        simp only [nextPosition]
        rw [if_neg hj1]
      have hdrop1 : (recAt files keys i).drop (j + 1) = [] :=
        List.drop_eq_nil_of_le (by omega)
      have hs1 : s = (joinDropFrom files keys (i + 1)).length + 1 := by
        rw [hdropj, hdrop1] at hs
        simp only [List.nil_append, List.cons_append, List.length_cons] at hs
        omega
      rw [hnext]
      rcases scanFwdFrom_char files keys (i + 1) with ⟨hlat, hempty⟩ |
        ⟨a, hia, hsf, hpos, heq⟩
      · have hs2 : s = 1 := by
          rw [hempty] at hs1
          simpa using hs1
        subst hs2
        rw [hlat, collectNext_succ]
        have hplat : Option.map RecordDiff.record (peekAt files keys .latest) =
            none := rfl
        constructor
        · simp only [outRecords, List.map_cons, collectNext, List.map_nil]
          rw [hpeek, hplat, hdropj, hdrop1, hempty]
          simp
        · simp [collectNext, nextPosition]
      · have hjd : joinDropFrom files keys (i + 1) =
            (recAt files keys a).drop 0 ++ joinDropFrom files keys (a + 1) := by
          rw [heq, joinDrop_succ]
          simp
        have hs' : ((recAt files keys a).drop 0 ++
            joinDropFrom files keys (a + 1)).length = s - 1 := by
          rw [← hjd]
          omega
        have hrec := ih (s - 1) (by omega) a 0 hpos hs'
        have hfuel : (s - 1) + 1 = s := by omega
        rw [hfuel] at hrec
        rw [hsf]
        constructor
        · simp only [outRecords, List.map_cons] at hrec ⊢
          rw [hpeek, hrec.1, hdropj, hdrop1, hjd]
          simp
        · exact hrec.2

/-- Auxiliary: backward traversal — from an in-bounds valid position
`(i, j)`, running `previous()` once per record up to and including
`(i, j)` yields those records newest-first, leaving the cursor at the
before-oldest sentinel. -/
theorem collectPrevious_run (files : RecordFileKey → List Record)
    (keys : List RecordFileKey) : ∀ s i j,
    j < (recAt files keys i).length →
    (joinTakeTo files keys i ++ (recAt files keys i).take (j + 1)).length = s →
    outRecords (collectPrevious files s
        { recordFileKeys := keys, recordPosition := .valid i j,
          valid := true }).1 =
      ((joinTakeTo files keys i ++ (recAt files keys i).take (j + 1)).reverse).map
        some ∧
    (collectPrevious files s
        { recordFileKeys := keys, recordPosition := .valid i j,
          valid := true }).2 =
      { recordFileKeys := keys, recordPosition := .oldest, valid := true } := by
  intro s
  induction s using Nat.strong_induction_on with
  | _ s ih =>
    intro i j hj hs
    have hr : (recAt files keys i).get? j =
        some ((recAt files keys i).get ⟨j, hj⟩) := List.get?_eq_get hj
    have hr' : (recAt files keys i)[j]? =
        some ((recAt files keys i).get ⟨j, hj⟩) := by
      rw [← List.get?_eq_getElem?]
      exact hr
    have htakej : (recAt files keys i).take (j + 1) =
        (recAt files keys i).take j ++ [(recAt files keys i).get ⟨j, hj⟩] := by
      rw [List.take_succ, hr']
      rfl
    have hpeek := peekAt_record hr
    have htklen : ((recAt files keys i).take (j + 1)).length = j + 1 := by
      simp [List.length_take]
      omega
    have hspos : 0 < s := by
      rw [← hs]
      simp only [List.length_append, htklen]
      omega
    have hfuel : s = (s - 1) + 1 := by omega
    rw [hfuel, collectPrevious_succ]
    have hrev : (joinTakeTo files keys i ++
          (recAt files keys i).take (j + 1)).reverse =
        (recAt files keys i).get ⟨j, hj⟩ ::
          (joinTakeTo files keys i ++ (recAt files keys i).take j).reverse := by
      rw [htakej, ← List.append_assoc, List.reverse_append]
      rfl
    by_cases hj0 : 0 < j
    · have hprev : previousPosition files keys (.valid i j) = .valid i (j - 1) := by
        simp only [previousPosition]
        rw [if_pos hj0]
      have hjj : j - 1 + 1 = j := by omega
      have hs' : (joinTakeTo files keys i ++
          (recAt files keys i).take ((j - 1) + 1)).length = s - 1 := by
        rw [hjj]
        rw [← hs]
        simp only [List.length_append, htklen, List.length_take]
        omega
      have hrec := ih (s - 1) (by omega) i (j - 1) (by omega) hs'
      rw [hjj] at hrec
      rw [hprev]
      constructor
      · simp only [outRecords, List.map_cons] at hrec ⊢
        rw [hpeek, hrec.1, hrev]
        simp only [List.map_cons]
      · exact hrec.2
    · have hj0' : j = 0 := by omega
      subst hj0'
      cases i with
      | zero =>
        have hprev : previousPosition files keys (.valid 0 0) = .oldest := by
          simp [previousPosition]
        have hs1 : s - 1 = 0 := by
          rw [← hs]
          simp [joinTakeTo, htklen]
        rw [hprev, hs1]
        constructor
        · simp only [outRecords, List.map_cons, collectPrevious, List.map_nil]
          rw [hpeek, hrev]
          simp [joinTakeTo]
        · simp [collectPrevious]
      | succ i'' =>
        have hprev : previousPosition files keys (.valid (i'' + 1) 0) =
            scanBackFrom files keys i'' := by
          simp [previousPosition]
        rw [hprev]
        rcases scanBack_char files keys i'' with ⟨hold, hempty⟩ |
          ⟨a, hai, hsb, hposa, heq⟩
        · have hs1 : s - 1 = 0 := by
            rw [← hs, hempty]
            simp
          rw [hold, hs1]
          constructor
          · simp only [outRecords, List.map_cons, collectPrevious, List.map_nil]
            rw [hpeek, hrev]
            rw [show joinTakeTo files keys (i'' + 1) = [] from hempty]
            simp
          · simp [collectPrevious]
        · have hlenA : (recAt files keys a).length - 1 + 1 =
              (recAt files keys a).length := by omega
          have hchain : joinTakeTo files keys a ++ recAt files keys a =
              joinTakeTo files keys (i'' + 1) := by
            rw [← joinTake_succ]
            rw [heq]
          have hs' : (joinTakeTo files keys a ++
              (recAt files keys a).take
                (((recAt files keys a).length - 1) + 1)).length = s - 1 := by
            rw [hlenA, List.take_length, hchain, ← hs]
            simp only [List.length_append, htklen]
            omega
          have hrec := ih (s - 1) (by omega) a ((recAt files keys a).length - 1)
            (by omega) hs'
          rw [hlenA, List.take_length] at hrec
          rw [hsb]
          constructor
          · simp only [outRecords, List.map_cons] at hrec ⊢
            rw [hpeek, hrec.1, hrev, hchain]
            simp
          · exact hrec.2

/-- Auxiliary: extracting the records of the produced diffs commutes with
projecting each output to its record. -/
theorem outRecords_filterMap (l : List (Option RecordDiff)) :
    (l.filterMap id).map RecordDiff.record = (outRecords l).filterMap id := by
  induction l with
  | nil => rfl
  | cons h t ih =>
    cases h with
    | none => simpa [outRecords] using ih
    | some d => simpa [outRecords] using ih

/-- C6: traversal symmetry — on any ledger with a duplicate-free key
snapshot, a cursor started at Oldest and driven forward with `next()`
until exhaustion produces every record once in key order followed by the
exhaustion marker, and driving the exhausted cursor backward with
`previous()` for the same number of calls produces exactly the reverse of
the forward output sequence; in particular, the records of the backward
pass are the reverse of the records of the forward pass. -/
theorem c6_traversal_symmetry (files : RecordFileKey → List Record)
    (keys : List RecordFileKey) (hnd : keys.Nodup) :
    TraversalSymmetry files keys := by
  have hpos0 := nextPosition_oldest_eq_scanFwd files keys hnd
  have hplat : Option.map RecordDiff.record (peekAt files keys .latest) =
      none := rfl
  simp only [TraversalSymmetry]
  rcases scanFwdFrom_char files keys 0 with ⟨hlat, hempty⟩ |
    ⟨a, _, hsf, hpos, heq⟩
  · -- empty ledger
    have hall : allRecordsOf files keys = [] := by
      rw [← joinDrop_zero]
      exact hempty
    have hc0 : RecordCursor.fromStart files keys .oldestStart =
        { recordFileKeys := keys, recordPosition := .latest, valid := true } := by
      simp only [RecordCursor.fromStart]
      rw [hpos0, hlat]
    rw [hc0, hall]
    refine ⟨?_, ?_, ?_⟩ <;>
      simp [collectNext, collectPrevious, RecordCursor.next,
        RecordCursor.previous, RecordCursor.peek, peekAt, nextPosition,
        outRecords]
  · -- at least one record
    have hall : allRecordsOf files keys =
        (recAt files keys a).drop 0 ++ joinDropFrom files keys (a + 1) := by
      rw [← joinDrop_zero, heq, joinDrop_succ]
      simp
    have hm : ((recAt files keys a).drop 0 ++
        joinDropFrom files keys (a + 1)).length =
        (allRecordsOf files keys).length := by
      rw [← hall]
    have hfwd := collectNext_run files keys
      ((allRecordsOf files keys).length) a 0 hpos hm
    have hc0 : RecordCursor.fromStart files keys .oldestStart =
        { recordFileKeys := keys, recordPosition := .valid a 0,
          valid := true } := by
      simp only [RecordCursor.fromStart]
      rw [hpos0, hsf]
    have hA : outRecords (collectNext files
        ((allRecordsOf files keys).length + 1)
        (RecordCursor.fromStart files keys .oldestStart)).1 =
        (allRecordsOf files keys).map some ++ [none] := by
      rw [hc0]
      have h1 := hfwd.1
      rw [← hall] at h1
      exact h1
    -- the key list is non-empty
    have hklen : keys.length ≠ 0 := by
      intro h0
      have hk : keys = [] := List.length_eq_zero.mp h0
      rw [hk] at hpos
      simp [recAt] at hpos
    obtain ⟨n, hn⟩ : ∃ n, keys.length = n + 1 :=
      ⟨keys.length - 1, by omega⟩
    have hprevlat : previousPosition files keys .latest =
        scanBackFrom files keys n := by
      simp only [previousPosition]
      rw [hn]
    rcases scanBack_char files keys n with ⟨hold, hemptyB⟩ |
      ⟨a2, _, hsb, hposa2, heq2⟩
    · exfalso
      have hallnil : allRecordsOf files keys = [] := by
        rw [← joinTake_length files keys, hn]
        exact hemptyB
      have h1 : (recAt files keys a).drop 0 ++
          joinDropFrom files keys (a + 1) = [] := by
        rw [← hall, hallnil]
      have h2 : recAt files keys a = [] := by
        have := (List.append_eq_nil.mp h1).1
        simpa using this
      rw [h2] at hpos
      simp at hpos
    · have hlenA2 : (recAt files keys a2).length - 1 + 1 =
          (recAt files keys a2).length := by omega
      have hjoin : joinTakeTo files keys a2 ++ recAt files keys a2 =
          allRecordsOf files keys := by
        rw [← joinTake_succ, ← heq2, ← hn, joinTake_length]
      have hpfx : (joinTakeTo files keys a2 ++
          (recAt files keys a2).take
            (((recAt files keys a2).length - 1) + 1)).length =
          (allRecordsOf files keys).length := by
        rw [hlenA2, List.take_length, hjoin]
      have hbwd := collectPrevious_run files keys
        ((allRecordsOf files keys).length) a2
        ((recAt files keys a2).length - 1) (by omega) hpfx
      rw [hlenA2, List.take_length, hjoin] at hbwd
      have hB : outRecords (collectPrevious files
          ((allRecordsOf files keys).length + 1)
          (collectNext files ((allRecordsOf files keys).length + 1)
            (RecordCursor.fromStart files keys .oldestStart)).2).1 =
          (outRecords (collectNext files
            ((allRecordsOf files keys).length + 1)
            (RecordCursor.fromStart files keys .oldestStart)).1).reverse := by
        rw [hA]
        rw [hc0, hfwd.2, collectPrevious_succ, hprevlat, hsb]
        simp only [outRecords, List.map_cons] at hbwd ⊢
        rw [hplat, hbwd.1]
        simp [List.reverse_append, List.map_reverse]
      refine ⟨hA, hB, ?_⟩
      rw [outRecords_filterMap, outRecords_filterMap, hB, hA]
      rw [List.filterMap_reverse]

/-- C6 witness: traversal symmetry instantiated on the sample ledger with
an empty middle partition. -/
theorem c6_traversal_witness :
    sampleKeys.Nodup ∧ TraversalSymmetry sampleFiles sampleKeys := by
  have hnd : sampleKeys.Nodup := by decide
  exact ⟨hnd, c6_traversal_symmetry sampleFiles sampleKeys hnd⟩
